import Mathlib

/-!
Verification development for the httomo pipeline-execution engine.

The definitions below are shallow embeddings of the Python sources:
  * `httomo/utils.py`               (`Pattern`, `_get_slicing_dim`)
  * `httomo/runner/block_split.py`  (`BlockSplitter`, `BlockAggregator`)
  * `httomo/runner/dataset.py`      (`DataSet`, `DataSetBlock`)
  * `httomo/runner/backend_wrapper.py` (reconstruction / dezinging wrappers)
  * `httomo/runner/platform_section.py` (`sectionize` and pattern finalization)
  * `httomo/task_runner.py`         (centering-slice override, `_update_max_slices`)
Fallible Python code (raise statements) is embedded with `Except String`.
-/

namespace Httomo

/-- The slicing-orientation enum from `httomo/utils.py` (`class Pattern`). -/
inductive Pattern where
  | projection
  | sinogram
  | all
deriving DecidableEq, Repr

/-- `_get_slicing_dim` from `httomo/utils.py`: the (1-based) dimension a method
requires the data to be sliced in.  `projection → 1`, `sinogram → 2`, `all → 1`. -/
def getSlicingDim : Pattern → Nat
  | .projection => 1
  | .sinogram => 2
  | .all => 1

/-- Ceiling division on naturals, the value of Python `math.ceil(a / b)` for
`a ≥ 0, b ≥ 1` (meaningless for `b = 0`, where Python raises `ZeroDivisionError`;
every use below is guarded by `b ≥ 1`). -/
def natCeilDiv (a b : Nat) : Nat := (a + b - 1) / b

end Httomo

namespace BlockSplit

open Httomo

/-! ### The dataset, as seen along one slicing dimension

`BlockSplitter`/`BlockAggregator` (from `httomo/runner/block_split.py`) touch the
3D data array only through numpy slicing and slice-assignment *along the single
slicing dimension* `d = _get_slicing_dim(pattern) - 1 ∈ {0, 1}`; the two
remaining axes are carried through untouched.  We therefore embed the 3D chunk
as the sequence `slabs` of its 2D cross-sections along `d` (the cross-section
type `α` is abstract), together with
  * `otherDims` — the shape with the slicing dimension deleted, i.e.
    `np.delete(data.shape, d)` as used by `_increase_dims_if_needed`, and
  * `dtype` — a code for the numpy dtype.
numpy `data[start:stop]` along `d` is `(slabs.drop start).take stop-start`
(with the same clamping behaviour), and slice-assignment along `d` is splicing.
(The `global_shape`/`global_index` bookkeeping of `dataset.py`, which the claims
about block tiling and aggregation do not mention, is not carried.) -/
structure DataSet (α : Type) where
  slabs : List α
  otherDims : Nat × Nat
  dtype : Nat
deriving DecidableEq, Repr

/-- `DataSet.make_block(dim, start, length)` restricted to the slab view: numpy
`data[start : start+length]` along the slicing dimension (a view; clamped like
Python slicing).  The block shares the non-slice shape and dtype of its base. -/
def DataSet.make_block (ds : DataSet α) (start length : Nat) : DataSet α :=
  { ds with slabs := (ds.slabs.drop start).take length }

/-- `BlockSplitter.__init__` state (`httomo/runner/block_split.py`):
`_max_slices = int(min(max_slices, shape[dim]))` and
`_num_blocks = math.ceil(shape[dim] / _max_slices)`. -/
structure BlockSplitter (α : Type) where
  full_data : DataSet α
  slicing_dim : Nat
  max_slices : Nat
  num_blocks : Nat
deriving Repr

def mkBlockSplitter (full : DataSet α) (pattern : Pattern) (maxSlices : Nat) :
    BlockSplitter α :=
  let s := min maxSlices full.slabs.length
  { full_data := full
    slicing_dim := getSlicingDim pattern - 1
    max_slices := s
    num_blocks := natCeilDiv full.slabs.length s }

/-- `BlockSplitter.__getitem__`: block `idx` is
`full_data.make_block(dim, idx * slices_per_block, slices_per_block)`. -/
def BlockSplitter.getItem (sp : BlockSplitter α) (idx : Nat) : DataSet α :=
  sp.full_data.make_block (idx * sp.max_slices) sp.max_slices

/-- The sequence of blocks the iterator (`BlockSplitter.__iter__`) yields:
`splitter[0], …, splitter[len(splitter) - 1]`. -/
def BlockSplitter.blocks (sp : BlockSplitter α) : List (DataSet α) :=
  (List.range sp.num_blocks).map sp.getItem

/-- `BlockAggregator.__init__` (`httomo/runner/block_split.py`): aggregation
state over the slab view; `_full_size = full_dataset.data.shape[dim]`,
`_current_idx = 0`, and the buffer starts out as the constructor's dataset. -/
structure BlockAggregator (α : Type) where
  dataset : DataSet α
  slicing_dim : Nat
  current_idx : Nat
  full_size : Nat
deriving DecidableEq, Repr

def mkBlockAggregator (full : DataSet α) (pattern : Pattern) : BlockAggregator α :=
  { dataset := full
    slicing_dim := getSlicingDim pattern - 1
    current_idx := 0
    full_size := full.slabs.length }

/-- `BlockAggregator._increase_dims_if_needed(shape, dtype)`: if the incoming
block's non-slice shape (`np.delete(shape, dim)`) or dtype differs from the
current buffer, either fail (blocks already appended, `_current_idx != 0`) or
reallocate a fresh buffer of `full_size` slices with the incoming non-slice
shape and dtype (`np.empty`, whose undefined contents we model by `junk`). -/
def BlockAggregator.increase_dims_if_needed (junk : α) (agg : BlockAggregator α)
    (blockOtherDims : Nat × Nat) (blockDtype : Nat) :
    Except String (BlockAggregator α) :=
  if blockOtherDims ≠ agg.dataset.otherDims ∨ blockDtype ≠ agg.dataset.dtype then
    if agg.current_idx ≠ 0 then
      .error "Received block of a different shape or type while full data already has data blocks"
    else
      .ok { agg with dataset :=
        { slabs := List.replicate agg.full_size junk
          otherDims := blockOtherDims
          dtype := blockDtype } }
  else
    .ok agg

/-- `BlockAggregator.append(dataset)`: bounds check
(`append_size + current_idx > full_size` raises), dims/dtype check with
possible reallocation, then numpy slice-assignment
`self._dataset.data[current_idx : current_idx + append_size] = dataset.data`
along the slicing dimension (splicing), then `current_idx += append_size`. -/
def BlockAggregator.append (junk : α) (agg : BlockAggregator α) (blk : DataSet α) :
    Except String (BlockAggregator α) :=
  if agg.full_size < blk.slabs.length + agg.current_idx then
    .error "Cannot append another block - not enough slices left"
  else
    match agg.increase_dims_if_needed junk blk.otherDims blk.dtype with
    | .error e => .error e
    | .ok agg2 =>
      .ok { agg2 with
        dataset := { agg2.dataset with
          slabs := (agg2.dataset.slabs.take agg2.current_idx ++ blk.slabs
            ++ agg2.dataset.slabs.drop (agg2.current_idx + blk.slabs.length)) },
        current_idx := agg2.current_idx + blk.slabs.length }

/-- `BlockAggregator.full_dataset` property: fails unless exactly `full_size`
slices have been aggregated. -/
def BlockAggregator.full_dataset (agg : BlockAggregator α) :
    Except String (DataSet α) :=
  if agg.current_idx ≠ agg.full_size then
    .error "Aggregation not finished"
  else
    .ok agg.dataset

end BlockSplit

namespace DatasetModel

/-- 3D arrays (`numpy.ndarray` with 3 axes) as nested lists of integers. -/
abbrev Arr3 := List (List (List Int))

/-- `DataSet` from `httomo/runner/dataset.py`: the data array, the auxiliary
arrays (`angles`, `darks`, `flats`) and the lock flag `_is_locked`.  We embed
the `gpu_enabled = False` code paths, so the lazily-transferred GPU caches and
dirty flags (which the claims do not touch) are not carried. -/
structure DataSet where
  data : Arr3
  angles : List Int
  darks : Arr3
  flats : Arr3
  is_locked : Bool
deriving DecidableEq, Repr

/-- `DataSet.__init__`: stores the arrays and calls `self.lock()`, so every
dataset is locked at construction. -/
def mkDataSet (data : Arr3) (angles : List Int) (darks flats : Arr3) : DataSet :=
  ⟨data, angles, darks, flats, true⟩

/-- `DataSet.lock()`: set the read-only flags and `_is_locked = True`. -/
def DataSet.lock (ds : DataSet) : DataSet := { ds with is_locked := true }

/-- `DataSet.unlock()`: clear the read-only flags and `_is_locked = False`. -/
def DataSet.unlock (ds : DataSet) : DataSet := { ds with is_locked := false }

/-- `DataSet._set_value("angles", v)` as reached from the `angles` /
`angles_radians` property setters: raises on a locked dataset (leaving the
field unchanged), otherwise replaces the field. -/
def DataSet.set_angles (ds : DataSet) (v : List Int) : Except String DataSet :=
  if ds.is_locked then .error "attempt to reset angles in a locked dataset"
  else .ok { ds with angles := v }

/-- `DataSet._set_value("darks", v)` via the `darks`/`dark` property setters. -/
def DataSet.set_darks (ds : DataSet) (v : Arr3) : Except String DataSet :=
  if ds.is_locked then .error "attempt to reset darks in a locked dataset"
  else .ok { ds with darks := v }

/-- `DataSet._set_value("flats", v)` via the `flats`/`flat` property setters. -/
def DataSet.set_flats (ds : DataSet) (v : Arr3) : Except String DataSet :=
  if ds.is_locked then .error "attempt to reset flats in a locked dataset"
  else .ok { ds with flats := v }

/-- numpy basic slicing `a[s0:e0, s1:e1, s2:e2]` on a 3D array
(`DataSet.get_data_block`), with Python clamping. -/
def get_data_block (a : Arr3) (s0 e0 s1 e1 s2 e2 : Nat) : Arr3 :=
  ((a.drop s0).take (e0 - s0)).map fun p =>
    ((p.drop s1).take (e1 - s1)).map fun r => (r.drop s2).take (e2 - s2)

/-- The `(shape[0], shape[1], shape[2])` of a (rectangular) nested-list 3D
array. -/
def shape3 (a : Arr3) : Nat × Nat × Nat :=
  (a.length, (a.headD []).length, ((a.headD []).headD []).length)

/-- `DataSetBlock.__init__`: keeps the base dataset and the slicing info, and
cuts the data view with full ranges on every axis except `dim`, which gets
`[start, start + length)`; `super().__init__` locks, so the block starts with
its own `_is_locked = True` (its own aux arrays are size-0 placeholders; aux
access is routed to the base). -/
structure DataSetBlock where
  base : DataSet
  dim : Nat
  start : Nat
  length : Nat
  data : Arr3
  is_locked : Bool
deriving DecidableEq, Repr

def mkDataSetBlock (base : DataSet) (dim start length : Nat) : DataSetBlock :=
  let sh := shape3 base.data
  let r0 := if dim = 0 then (start, start + length) else (0, sh.1)
  let r1 := if dim = 1 then (start, start + length) else (0, sh.2.1)
  let r2 := if dim = 2 then (start, start + length) else (0, sh.2.2)
  ⟨base, dim, start, length,
    get_data_block base.data r0.1 r0.2 r1.1 r1.2 r2.1 r2.2, true⟩

/-- `DataSet.make_block(dim, start, length)`: default length is the remaining
chunk length after `start`; returns a `DataSetBlock` over this dataset. -/
def DataSet.make_block (ds : DataSet) (dim start : Nat) (length : Option Nat) :
    DataSetBlock :=
  let dimLen := match dim with
    | 0 => (shape3 ds.data).1
    | 1 => (shape3 ds.data).2.1
    | _ => (shape3 ds.data).2.2
  let len := match length with
    | none => dimLen - start
    | some l => l
  mkDataSetBlock ds dim start len

/-- `DataSetBlock._set_value(field, v)`: raises unconditionally
(`"Cannot update field ... in a block/slice dataset"`). -/
def DataSetBlock.set_angles (_b : DataSetBlock) (_v : List Int) :
    Except String DataSetBlock :=
  .error "Cannot update field angles in a block/slice dataset"

/-- `DataSetBlock._get_value("angles")` routes to the base dataset. -/
def DataSetBlock.get_angles (b : DataSetBlock) : List Int := b.base.angles

/-- `lock` inherited from `DataSet` on a block: toggles the block's own flag
(it touches only the block's own size-0 placeholder aux arrays). -/
def DataSetBlock.lock (b : DataSetBlock) : DataSetBlock :=
  { b with is_locked := true }

/-- `unlock` inherited from `DataSet` on a block. -/
def DataSetBlock.unlock (b : DataSetBlock) : DataSetBlock :=
  { b with is_locked := false }

/-- A dataset value as the runner passes it around: either a plain `DataSet`
or a `DataSetBlock` (Python dynamic dispatch between the two `make_block`
methods). -/
inductive DSAny where
  | plain (ds : DataSet)
  | blockOf (b : DataSetBlock)
deriving DecidableEq, Repr

/-- Dynamic dispatch of `make_block`: `DataSet.make_block` produces a
`DataSetBlock`; `DataSetBlock.make_block` raises
`ValueError("Cannot slice a dataset that is already a slice")`. -/
def DSAny.make_block (d : DSAny) (dim start : Nat) (length : Option Nat) :
    Except String DSAny :=
  match d with
  | .plain ds => .ok (.blockOf (ds.make_block dim start length))
  | .blockOf _ => .error "Cannot slice a dataset that is already a slice"

/-- `DezingingWrapper.execute` (`httomo/runner/backend_wrapper.py`): applies
the method to the data, then unlocks, applies the same method with the same
parameters (both abstracted into `f`) to darks and flats through the property
setters, and locks again. -/
def dezinging_execute (f : Arr3 → Arr3) (ds : DataSet) : Except String DataSet :=
  let ds1 := { ds with data := f ds.data }
  let ds2 := ds1.unlock
  match ds2.set_darks (f ds2.darks) with
  | .error e => .error e
  | .ok ds3 =>
    match ds3.set_flats (f ds3.flats) with
    | .error e => .error e
    | .ok ds4 => .ok ds4.lock

/-- `ReconstructionWrapper._preprocess_data` on a plain `DataSet`: if the
angular dimension `data.shape[0]` differs from `len(angles_radians)`, unlock,
assign the truncation `angles_radians[0:shape0]` through the setter, and lock
again. -/
def recon_preprocess (ds : DataSet) : Except String DataSet :=
  if ds.data.length ≠ ds.angles.length then
    match ds.unlock.set_angles (ds.unlock.angles.take ds.data.length) with
    | .error e => .error e
    | .ok ds2 => .ok ds2.lock
  else .ok ds

/-- `ReconstructionWrapper._preprocess_data` on a `DataSetBlock` (what the
runner's `execute` receives): the same steps, but `angles_radians` routes to
the base dataset, and the assignment dispatches to `DataSetBlock._set_value`. -/
def recon_preprocess_block (b : DataSetBlock) : Except String DataSetBlock :=
  if b.data.length ≠ b.get_angles.length then
    match b.unlock.set_angles (b.unlock.get_angles.take b.data.length) with
    | .error e => .error e
    | .ok b2 => .ok b2.lock
  else .ok b

end DatasetModel

namespace TaskRunner

/-- A Python value as found in a method-parameter dict (for the `ind`
parameter of centering methods: an integer, the string literal `"mid"`, or
`None`). -/
inductive PyVal where
  | none
  | int (n : Int)
  | str (s : String)
deriving DecidableEq, Repr

/-- Python truthiness of such a value. -/
def PyVal.truthy : PyVal → Bool
  | .none => false
  | .int n => n ≠ 0
  | .str s => s.length ≠ 0

/-- The centering-data override in `run_tasks` (`httomo/task_runner.py`, the
`if 'center' in method_name and it_blocks == 0` branch): reads `ind` from the
method parameters and evaluates `if slice_ind_center is None or 'mid':` - a
Python `or` whose right operand is the truthy literal string - before falling
back to `data_full_section.shape[1] // 2`; the result is the axis-1 index of
the single sinogram slice handed to the method via
`data_full_section[:, slice_ind_center, :]`. -/
def center_slice_index (ind : PyVal) (shape1 : Nat) : Int :=
  if ind = PyVal.none || (PyVal.str "mid").truthy then ((shape1 / 2 : Nat) : Int)
  else match ind with
    | .int n => n
    | _ => 0

/-- What claim C6 (and spec §4.3) state the index should be: the value of
`ind` when provided, and the middle of the chunk along axis 1 when `ind` is
omitted or `None`.  Stated from the claim's words, for comparison with
`center_slice_index` above. -/
def center_slice_index_claimed (ind : PyVal) (shape1 : Nat) : Int :=
  match ind with
  | .int n => n
  | _ => ((shape1 / 2 : Nat) : Int)

/-- Python `math.ceil(a / b)` on integers; raises `ZeroDivisionError` for
`b = 0`. -/
def pymath_ceil_div (a b : Int) : Except String Int :=
  if b = 0 then .error "ZeroDivisionError"
  else if 0 < b then .ok (-(Int.ediv (-a) b))
  else .ok (-(Int.ediv a (-b)))

/-- `_update_max_slices` (`httomo/task_runner.py`): for a GPU section, each
method with a memory estimator contributes
`min(max_slices, slices_estimated)` (the entries of `max_slices_methods`,
initialised to the chunk length along the slicing dimension), and
`section.max_slices` becomes the minimum of the list; for a CPU section the
chunk length is used unchanged.  The estimator outcomes (`slices_estimated`,
which can be zero or negative when the per-slice memory exceeds the available
budget) are abstracted as the `estimates` list, `none` standing for a method
without estimator.  No branch of the source function raises. -/
def update_max_slices (gpu : Bool) (chunkLen : Int)
    (estimates : List (Option Int)) : Int :=
  if gpu then
    (estimates.map fun e => match e with
      | Option.none => chunkLen
      | some est => min chunkLen est).foldl min chunkLen
  else chunkLen

/-- `iterations_for_blocks = math.ceil(data_shape[slicing_dim] / section.max_slices)`
in `run_tasks`. -/
def iterations_for_blocks (chunkLen maxSlices : Int) : Except String Int :=
  pymath_ceil_div chunkLen maxSlices

/-- `range(iterations_for_blocks)`, the list of block iterations - empty for a
non-positive count, so no block is processed at all. -/
def block_iterations_list (n : Int) : List Nat := List.range n.toNat

end TaskRunner

namespace Sectionizer

open Httomo

/-- A method wrapper as the sectionizer sees it (`MethodWrapper` /
`MethodFunc`): its declared pattern, its placement (`gpu`), and the methods it
references through `OutputRef` values among its configuration parameters
(`references_previous_method` checks `r.method in current_methods` by object
identity, which we model by the numeric `id`).  Modelled from the spec for the
input shape (`method_wrapper.py`/`output_ref.py` are not under `src/`): a
wrapper carries a declared pattern, a placement and parameters that may
reference earlier wrappers; the grouping code itself is
`httomo/runner/platform_section.py`. -/
structure MethodW where
  id : Nat
  pattern : Pattern
  gpu : Bool
  refs : List Nat
deriving DecidableEq, Repr

/-- `PlatformSection` (`httomo/runner/platform_section.py`). -/
structure PlatformSection where
  pattern : Pattern
  max_slices : Nat
  methods : List MethodW
  is_last : Bool
deriving DecidableEq, Repr

/-- The pipeline as `sectionize` consumes it.  Modelled from the spec
(`pipeline.py` is not under `src/`): the loader's declared pattern plus the
ordered list of method wrappers; `loader_reslice` starts out unset. -/
structure Pipeline where
  loader_pattern : Pattern
  methods : List MethodW
deriving DecidableEq, Repr

/-- `is_pattern_compatible(a, b)` from `sectionize`. -/
def is_pattern_compatible (a b : Pattern) : Prop :=
  a = Pattern.all ∨ b = Pattern.all ∨ a = b

instance (a b : Pattern) : Decidable (is_pattern_compatible a b) := by
  unfold is_pattern_compatible
  infer_instance

/-- `references_previous_method(method)` from `sectionize`: some `OutputRef`
among the method's parameters references a method in `current_methods`. -/
def references_previous_method (cur : List MethodW) (m : MethodW) : Prop :=
  ∃ r ∈ m.refs, ∃ c ∈ cur, c.id = r

instance (cur : List MethodW) (m : MethodW) :
    Decidable (references_previous_method cur m) := by
  unfold references_previous_method
  infer_instance

/-- The loop-carried state of the grouping pass of `sectionize`: the emitted
sections, `current_pattern` and `current_methods`. -/
structure GroupState where
  sections : List PlatformSection
  cur_pattern : Pattern
  cur_methods : List MethodW
deriving DecidableEq, Repr

/-- `finish_section()`: emit `PlatformSection(current_pattern, 0,
current_methods)`. -/
def finish_section (st : GroupState) : List PlatformSection :=
  st.sections ++ [⟨st.cur_pattern, 0, st.cur_methods, false⟩]

/-- One iteration of the `for method in pipeline` loop of `sectionize`:
break (flush the section and restart from `method`) when the patterns are
incompatible or the method references a previous method of the section;
otherwise append the method, letting a pattern-`all` section adopt the
method's pattern. -/
def group_step (st : GroupState) (m : MethodW) : GroupState :=
  if ¬ is_pattern_compatible st.cur_pattern m.pattern
      ∨ references_previous_method st.cur_methods m then
    { sections := finish_section st
      cur_pattern := if m.pattern ≠ Pattern.all then m.pattern else st.cur_pattern
      cur_methods := [m] }
  else
    { sections := st.sections
      cur_pattern := if st.cur_pattern = Pattern.all then m.pattern else st.cur_pattern
      cur_methods := st.cur_methods ++ [m] }

/-- `sections[-1].is_last = True`. -/
def mark_last : List PlatformSection → List PlatformSection
  | [] => []
  | [s] => [{ s with is_last := true }]
  | s :: t :: rest => s :: mark_last (t :: rest)

/-- The grouping pass of `sectionize`: fold the loop over the pipeline's
methods starting from `(sections, current_pattern, current_methods) =
([], loader_pattern, [])`, run the final `finish_section()`, and mark the last
section. -/
def group_sections (p : Pipeline) : List PlatformSection :=
  mark_last (finish_section (p.methods.foldl group_step ⟨[], p.loader_pattern, []⟩))

/-- The reversed sweep of `_backpropagate_section_patterns`: processing from
the last section backwards with the loop-carried `last_pattern` (initially
`all`), a section still at `all` inherits it; returns the rewritten sections
and the final `last_pattern` (the new first section's pattern, or `all` for an
empty list). -/
def backprop : List PlatformSection → List PlatformSection × Pattern
  | [] => ([], Pattern.all)
  | s :: rest =>
    let r := backprop rest
    let p2 := if s.pattern = Pattern.all then r.2 else s.pattern
    ({ s with pattern := p2 } :: r.1, p2)

/-- `_backpropagate_section_patterns(pipeline, sections)`: rewrite the section
patterns, then either give the `all`-patterned loader the propagated pattern,
or set `pipeline.loader_reslice` when the loader's pattern differs from it.
Returns `(sections, loader_pattern, loader_reslice)`. -/
def backpropagate_section_patterns (loader : Pattern)
    (secs : List PlatformSection) : List PlatformSection × Pattern × Bool :=
  let bp := backprop secs
  if loader = Pattern.all then (bp.1, bp.2, false)
  else if loader ≠ bp.2 then (bp.1, loader, true)
  else (bp.1, loader, false)

/-- `_finalize_patterns(pipeline, sections)`: if the first section is still at
pattern `all`, set every section and the loader to the default `projection`
and emit the "all pipeline sections support all patterns" diagnostic
(`log_once`, modelled by the returned flag); then the two `assert` statements,
embedded as errors.  Returns `(sections, loader_pattern, diagnostic)`. -/
def set_default_pattern (s : PlatformSection) : PlatformSection :=
  { s with pattern := Pattern.projection }

def finalize_step (secs : List PlatformSection) (loader : Pattern) :
    List PlatformSection × Pattern × Bool :=
  match secs with
  | [] => (secs, loader, false)
  | s0 :: _ =>
    if s0.pattern = Pattern.all then
      (secs.map set_default_pattern, Pattern.projection, true)
    else (secs, loader, false)

def finalize_check (step : List PlatformSection × Pattern × Bool) :
    Except String (List PlatformSection × Pattern × Bool) :=
  if step.1.all fun s => decide (s.pattern ≠ Pattern.all) then
    if step.2.1 ≠ Pattern.all then .ok step
    else .error "AssertionError: loader pattern is all"
  else .error "AssertionError: section pattern is all"

def finalize_patterns (secs : List PlatformSection) (loader : Pattern) :
    Except String (List PlatformSection × Pattern × Bool) :=
  finalize_check (finalize_step secs loader)

/-- `_set_method_patterns(sections)`: stamp each section's final pattern onto
its wrappers. -/
def set_method_patterns (secs : List PlatformSection) : List PlatformSection :=
  secs.map fun s =>
    { s with methods := s.methods.map fun m => { m with pattern := s.pattern } }

/-- The observable outcome of `sectionize(pipeline)`: the final sections, the
loader's pattern, the `loader_reslice` marker and whether the all-patterns
diagnostic was emitted. -/
structure SectionizeResult where
  sections : List PlatformSection
  loader_pattern : Pattern
  loader_reslice : Bool
  diagnostic : Bool
deriving DecidableEq, Repr

/-- `sectionize(pipeline)` (`httomo/runner/platform_section.py`): group,
back-propagate patterns, finalize (with its asserts), stamp method patterns. -/
def sectionize (p : Pipeline) : Except String SectionizeResult :=
  let secs0 := group_sections p
  let bp := backpropagate_section_patterns p.loader_pattern secs0
  match finalize_patterns bp.1 bp.2.1 with
  | .error e => .error e
  | .ok fin => .ok ⟨set_method_patterns fin.1, fin.2.1, bp.2.2, fin.2.2⟩

/-- The break test of `sectionize` between an emitted section and the method
that opened the next one. -/
def break_condition (s : PlatformSection) (m : MethodW) : Prop :=
  ¬ is_pattern_compatible s.pattern m.pattern
    ∨ references_previous_method s.methods m

/-- Every adjacent pair of sections is separated by a fired break rule: the
first method of the later section was pattern-incompatible with the earlier
section or referenced one of its methods (and the later section is
nonempty). -/
def boundary_ok : List PlatformSection → Prop
  | [] => True
  | [_] => True
  | s :: t :: rest =>
    (match t.methods with
      | [] => False
      | m :: _ => break_condition s m)
    ∧ boundary_ok (t :: rest)

/-- All `all` patterns form a leading run: after the first non-`all` pattern
in the list, no later pattern is `all`.  This is the grouping-pass invariant
(the carried pattern never returns to `all`). -/
def allsLeading : List Pattern → Prop
  | [] => True
  | p :: rest =>
    if p = Pattern.all then allsLeading rest
    else ∀ q ∈ rest, q ≠ Pattern.all

end Sectionizer

/-!  ## Supporting lemmas -/

namespace Httomo

theorem natCeilDiv_eq (a b : Nat) : natCeilDiv a b = a ⌈/⌉ b :=
  (Nat.ceilDiv_eq_add_pred_div a b).symm

theorem natCeilDiv_mul_ge (a b : Nat) (hb : 1 ≤ b) : a ≤ natCeilDiv a b * b := by
  rw [natCeilDiv_eq, mul_comm]
  exact (ceilDiv_le_iff_le_mul hb).1 le_rfl

theorem natCeilDiv_pos (a b : Nat) (ha : 1 ≤ a) (hb : 1 ≤ b) : 1 ≤ natCeilDiv a b := by
  rw [natCeilDiv_eq]
  by_contra h
  push_neg at h
  have h0 : a ⌈/⌉ b ≤ 0 := by omega
  have := (ceilDiv_le_iff_le_mul hb).1 h0
  omega

theorem natCeilDiv_pred_mul_lt (a b : Nat) (ha : 1 ≤ a) (hb : 1 ≤ b) :
    (natCeilDiv a b - 1) * b < a := by
  have hn := natCeilDiv_pos a b ha hb
  rw [natCeilDiv_eq] at hn ⊢
  by_contra h
  push_neg at h
  have h2 : a ⌈/⌉ b ≤ a ⌈/⌉ b - 1 := by
    rw [ceilDiv_le_iff_le_mul hb, mul_comm]
    exact h
  omega

theorem natCeilDiv_eq_one (a b : Nat) (h1 : 1 ≤ a) (h2 : a ≤ b) : natCeilDiv a b = 1 := by
  have hb : 1 ≤ b := le_trans h1 h2
  have hpos := natCeilDiv_pos a b h1 hb
  have hle : natCeilDiv a b ≤ 1 := by
    rw [natCeilDiv_eq, ceilDiv_le_iff_le_mul hb]
    omega
  omega

/-- The number of blocks is insensitive to clamping `max_slices` at the chunk
length: `⌈L / min m L⌉ = ⌈L / m⌉` for `L, m ≥ 1`.  This is why
`BlockSplitter`, which computes the left-hand side, yields the
`⌈chunk_len/max_slices⌉` blocks the spec promises. -/
theorem natCeilDiv_min (L m : Nat) (hL : 1 ≤ L) :
    natCeilDiv L (min m L) = natCeilDiv L m := by
  rcases le_total m L with h | h
  · rw [min_eq_left h]
  · rw [min_eq_right h, natCeilDiv_eq_one L L hL le_rfl, natCeilDiv_eq_one L m hL h]

end Httomo

namespace BlockSplit

open Httomo

/-- Concatenating chunks of size `s` cut by `take`/`drop` gives back a prefix:
the join of `l[i*s : i*s + s]` for `i < n` is `l.take (n*s)`. -/
theorem join_take_drop (s : Nat) (l : List α) :
    ∀ n : Nat, (((List.range n).map fun i => (l.drop (i * s)).take s)).flatten
      = l.take (n * s) := by
  intro n
  induction n with
  | zero => simp
  | succ n ih =>
    rw [List.range_succ, List.map_append, List.flatten_append, ih]
    simp only [List.map_cons, List.map_nil, List.flatten_cons, List.flatten_nil,
      List.append_nil]
    rw [Nat.succ_mul, List.take_add]

/-- Writing a slice of a list back to the place it was cut from leaves the list
unchanged (numpy slice-assignment of a view of the buffer onto itself). -/
theorem splice_self (l : List α) (m k : Nat) :
    (l.take m ++ (l.drop m).take k) ++ l.drop (m + min k (l.length - m)) = l := by
  rcases le_total k (l.length - m) with h | h
  · rw [min_eq_left h, ← List.take_add]
    exact List.take_append_drop _ l
  · rw [min_eq_right h]
    have hdt : (l.drop m).take k = l.drop m :=
      List.take_of_length_le (by rw [List.length_drop]; exact h)
    rw [hdt]
    rcases le_total m l.length with hm | hm
    · have hL : m + (l.length - m) = l.length := by omega
      rw [hL, List.drop_length, List.append_nil]
      exact List.take_append_drop _ l
    · have h1 : l.drop m = [] := List.drop_eq_nil_of_le hm
      have h2 : l.take m = l := List.take_of_length_le hm
      simp [h1, h2]
      omega

/-- One `append` of a block that is a view of the buffer region starting at the
current index succeeds and only advances the index. -/
theorem append_writeback (junk : α) (od : Nat × Nat) (dt sd : Nat) (l : List α)
    (c k : Nat) (hc : c ≤ l.length) :
    BlockAggregator.append junk ⟨⟨l, od, dt⟩, sd, c, l.length⟩
      ⟨(l.drop c).take k, od, dt⟩
    = .ok ⟨⟨l, od, dt⟩, sd, c + min k (l.length - c), l.length⟩ := by
  have hlen : ((l.drop c).take k).length = min k (l.length - c) := by
    rw [List.length_take, List.length_drop]
  unfold BlockAggregator.append BlockAggregator.increase_dims_if_needed
  simp only [hlen]
  rw [if_neg (by omega), if_neg (by simp)]
  simp only [Except.ok.injEq]
  refine congrArg₂ (fun a b => BlockAggregator.mk a sd b l.length) ?_ rfl
  simp only [DataSet.mk.injEq, and_true]
  exact splice_self l c k

/-- Appending the remaining blocks `j, …, n-1` of an identity split to an
aggregator whose buffer is the chunk itself and whose index is at `min (j*s) L`
succeeds and ends with the full index `L` and the buffer unchanged. -/
theorem appendAll_identity (junk : α) (od : Nat × Nat) (dt sd : Nat) (l : List α)
    (s : Nat) (hs : 1 ≤ s) :
    ∀ k j, j + k = Httomo.natCeilDiv l.length s →
      (((List.range' j k).map fun i =>
          (⟨(l.drop (i * s)).take s, od, dt⟩ : DataSet α)).foldlM
          (BlockAggregator.append junk)
          (⟨⟨l, od, dt⟩, sd, min (j * s) l.length, l.length⟩ : BlockAggregator α))
        = .ok ⟨⟨l, od, dt⟩, sd, l.length, l.length⟩ := by
  intro k
  induction k with
  | zero =>
    intro j hj
    have hj' : j = Httomo.natCeilDiv l.length s := by omega
    subst hj'
    have hmin : min (Httomo.natCeilDiv l.length s * s) l.length = l.length :=
      min_eq_right (Httomo.natCeilDiv_mul_ge l.length s hs)
    rw [hmin]
    rfl
  | succ k ih =>
    intro j hj
    have hn1 : 1 ≤ Httomo.natCeilDiv l.length s := by omega
    have hL : 1 ≤ l.length := by
      by_contra hL0
      have hl0 : l.length = 0 := by omega
      have : Httomo.natCeilDiv l.length s = 0 := by
        unfold Httomo.natCeilDiv
        rw [hl0]
        exact Nat.div_eq_of_lt (by omega)
      omega
    have hlast : (Httomo.natCeilDiv l.length s - 1) * s < l.length :=
      Httomo.natCeilDiv_pred_mul_lt l.length s hL hs
    have hjs : j * s ≤ (Httomo.natCeilDiv l.length s - 1) * s :=
      Nat.mul_le_mul_right s (by omega)
    have hminj : min (j * s) l.length = j * s := min_eq_left (by omega)
    have hr : List.range' j (k + 1) = j :: List.range' (j + 1) k := rfl
    rw [hr, List.map_cons, List.foldlM_cons, hminj,
      append_writeback junk od dt sd l (j * s) s (by omega)]
    have hidx : j * s + min s (l.length - j * s) = min ((j + 1) * s) l.length := by
      have hmul : (j + 1) * s = j * s + s := by ring
      omega
    rw [hidx]
    exact ih (j + 1) (by omega)

end BlockSplit

namespace Sectionizer

theorem mark_last_map_pattern (l : List PlatformSection) :
    (mark_last l).map (fun s => s.pattern) = l.map (fun s => s.pattern) := by
  induction l with
  | nil => rfl
  | cons s rest ih =>
    cases rest with
    | nil => rfl
    | cons t r =>
      show (s :: mark_last (t :: r)).map _ = _
      simp only [List.map_cons]
      rw [show (mark_last (t :: r)).map (fun s => s.pattern)
          = (t :: r).map (fun s => s.pattern) from ih]
      simp

theorem mark_last_ne_nil (l : List PlatformSection) (h : l ≠ []) :
    mark_last l ≠ [] := by
  cases l with
  | nil => exact absurd rfl h
  | cons s rest =>
    cases rest with
    | nil => simp [mark_last]
    | cons t r => simp [mark_last]

theorem boundary_ok_mark_last (l : List PlatformSection) (h : boundary_ok l) :
    boundary_ok (mark_last l) := by
  induction l with
  | nil => exact h
  | cons s rest ih =>
    cases rest with
    | nil => exact trivial
    | cons t r =>
      obtain ⟨hpair, hrest⟩ := h
      show boundary_ok (s :: mark_last (t :: r))
      cases r with
      | nil => exact ⟨hpair, trivial⟩
      | cons u r2 =>
        show boundary_ok (s :: t :: mark_last (u :: r2))
        exact ⟨hpair, ih hrest⟩

theorem allsLeading_singleton (p : Httomo.Pattern) : allsLeading [p] := by
  unfold allsLeading
  split
  · trivial
  · simp

theorem allsLeading_all_of_append_all (S : List Httomo.Pattern)
    (h : allsLeading (S ++ [Httomo.Pattern.all])) :
    ∀ p ∈ S, p = Httomo.Pattern.all := by
  induction S with
  | nil => simp
  | cons s S ih =>
    intro p hp
    rw [List.cons_append] at h
    unfold allsLeading at h
    by_cases hs : s = Httomo.Pattern.all
    · rw [if_pos hs] at h
      rcases List.mem_cons.1 hp with rfl | hp'
      · exact hs
      · exact ih h p hp'
    · rw [if_neg hs] at h
      exact absurd (h Httomo.Pattern.all (by simp)) (by simp)

theorem allsLeading_append_any (S : List Httomo.Pattern) (x : Httomo.Pattern)
    (h : ∀ p ∈ S, p = Httomo.Pattern.all) : allsLeading (S ++ [x]) := by
  induction S with
  | nil => exact allsLeading_singleton x
  | cons s S ih =>
    rw [List.cons_append]
    unfold allsLeading
    rw [if_pos (h s (by simp))]
    exact ih fun p hp => h p (by simp [hp])

theorem allsLeading_append_nonall (S : List Httomo.Pattern) (x y : Httomo.Pattern)
    (h : allsLeading (S ++ [x])) (hx : x ≠ Httomo.Pattern.all)
    (hy : y ≠ Httomo.Pattern.all) : allsLeading ((S ++ [x]) ++ [y]) := by
  induction S with
  | nil =>
    show allsLeading (x :: [y])
    unfold allsLeading
    rw [if_neg hx]
    simp [hy]
  | cons s S ih =>
    rw [List.cons_append] at h
    show allsLeading (s :: ((S ++ [x]) ++ [y]))
    unfold allsLeading at h ⊢
    by_cases hs : s = Httomo.Pattern.all
    · rw [if_pos hs] at h ⊢
      exact ih h
    · rw [if_neg hs] at h ⊢
      intro q hq
      rcases List.mem_append.1 hq with hq | hq
      · exact h q hq
      · rw [List.mem_singleton.1 hq]
        exact hy

theorem group_step_allsLeading (st : GroupState) (m : MethodW)
    (h : allsLeading ((st.sections.map fun s => s.pattern) ++ [st.cur_pattern])) :
    allsLeading (((group_step st m).sections.map fun s => s.pattern)
      ++ [(group_step st m).cur_pattern]) := by
  unfold group_step
  split
  · simp only [finish_section, List.map_append, List.map_cons, List.map_nil]
    by_cases hcur : st.cur_pattern = Httomo.Pattern.all
    · apply allsLeading_append_any
      intro p hp
      rcases List.mem_append.1 hp with hp | hp
      · exact allsLeading_all_of_append_all _ (hcur ▸ h) p hp
      · rw [List.mem_singleton.1 hp]
        exact hcur
    · have hcur2 : (if m.pattern ≠ Httomo.Pattern.all then m.pattern
          else st.cur_pattern) ≠ Httomo.Pattern.all := by
        split
        · assumption
        · exact hcur
      exact allsLeading_append_nonall _ _ _ h hcur hcur2
  · simp only []
    by_cases hcur : st.cur_pattern = Httomo.Pattern.all
    · exact allsLeading_append_any _ _
        (allsLeading_all_of_append_all _ (hcur ▸ h))
    · rw [if_neg hcur]
      exact h

theorem foldl_allsLeading (ms : List MethodW) :
    ∀ st : GroupState,
      allsLeading ((st.sections.map fun s => s.pattern) ++ [st.cur_pattern]) →
      allsLeading (((ms.foldl group_step st).sections.map fun s => s.pattern)
        ++ [(ms.foldl group_step st).cur_pattern]) := by
  induction ms with
  | nil => exact fun st h => h
  | cons m ms ih => exact fun st h => ih _ (group_step_allsLeading st m h)

theorem group_sections_allsLeading (p : Pipeline) :
    allsLeading ((group_sections p).map fun s => s.pattern) := by
  unfold group_sections
  rw [mark_last_map_pattern]
  have h0 : allsLeading
      (((⟨[], p.loader_pattern, []⟩ : GroupState).sections.map fun s => s.pattern)
        ++ [(⟨[], p.loader_pattern, []⟩ : GroupState).cur_pattern]) := by
    simpa using allsLeading_singleton p.loader_pattern
  have hf := foldl_allsLeading p.methods ⟨[], p.loader_pattern, []⟩ h0
  simpa [finish_section, List.map_append] using hf

theorem group_sections_ne_nil (p : Pipeline) : group_sections p ≠ [] := by
  unfold group_sections
  apply mark_last_ne_nil
  simp [finish_section]

theorem boundary_ok_append_last (l : List PlatformSection) (t : PlatformSection)
    (h1 : boundary_ok l)
    (h2 : ∀ s, l.getLast? = some s →
      match t.methods with
      | [] => False
      | m :: _ => break_condition s m) :
    boundary_ok (l ++ [t]) := by
  induction l with
  | nil => trivial
  | cons s rest ih =>
    cases rest with
    | nil => exact ⟨h2 s rfl, trivial⟩
    | cons u r =>
      obtain ⟨hp, hrest⟩ := h1
      refine ⟨hp, ih hrest ?_⟩
      intro s0 hs0
      apply h2
      rw [List.getLast?_cons_cons]
      exact hs0

theorem boundary_ok_congr_last (S : List PlatformSection) (a b : PlatformSection)
    (hhead : a.methods.head? = b.methods.head?)
    (h : boundary_ok (S ++ [a])) : boundary_ok (S ++ [b]) := by
  induction S with
  | nil => trivial
  | cons s rest ih =>
    cases rest with
    | nil =>
      obtain ⟨hp, _⟩ := h
      refine ⟨?_, trivial⟩
      cases hma : a.methods with
      | nil =>
        rw [hma] at hp
        exact hp.elim
      | cons x xs =>
        rw [hma] at hp
        cases hmb : b.methods with
        | nil =>
          rw [hma, hmb] at hhead
          simp at hhead
        | cons y ys =>
          rw [hma, hmb] at hhead
          simp only [List.head?_cons, Option.some.injEq] at hhead
          show break_condition s y
          exact hhead ▸ hp
    | cons u r =>
      obtain ⟨hp, hrest⟩ := h
      exact ⟨hp, ih hrest⟩

theorem group_step_boundary (st : GroupState) (m : MethodW)
    (h : boundary_ok (finish_section st)
      ∧ (st.sections ≠ [] → st.cur_methods ≠ [])) :
    boundary_ok (finish_section (group_step st m))
      ∧ ((group_step st m).sections ≠ [] → (group_step st m).cur_methods ≠ []) := by
  obtain ⟨hb, hne⟩ := h
  unfold group_step
  split
  case isTrue hbr =>
    constructor
    · show boundary_ok (finish_section st ++ [⟨_, 0, [m], false⟩])
      apply boundary_ok_append_last _ _ hb
      intro s0 hs0
      have hlast : (finish_section st).getLast?
          = some ⟨st.cur_pattern, 0, st.cur_methods, false⟩ := by
        unfold finish_section
        rw [List.getLast?_concat]
      rw [hlast] at hs0
      obtain rfl := Option.some.injEq .. ▸ hs0
      show break_condition ⟨st.cur_pattern, 0, st.cur_methods, false⟩ m
      exact hbr
    · intro _
      simp
  case isFalse hbr =>
    constructor
    · show boundary_ok (st.sections
        ++ [⟨_, 0, st.cur_methods ++ [m], false⟩])
      cases hcm : st.cur_methods with
      | nil =>
        have hsec : st.sections = [] := by
          by_contra hs
          exact (hne hs) hcm
        rw [hsec]
        trivial
      | cons c cs =>
        apply boundary_ok_congr_last _ ⟨st.cur_pattern, 0, st.cur_methods, false⟩
        · rw [hcm]
          rfl
        · exact hb
    · intro _
      simp

theorem foldl_boundary (ms : List MethodW) :
    ∀ st : GroupState,
      boundary_ok (finish_section st) ∧ (st.sections ≠ [] → st.cur_methods ≠ []) →
      boundary_ok (finish_section (ms.foldl group_step st))
        ∧ ((ms.foldl group_step st).sections ≠ []
            → (ms.foldl group_step st).cur_methods ≠ []) := by
  induction ms with
  | nil => exact fun st h => h
  | cons m ms ih => exact fun st h => ih _ (group_step_boundary st m h)

theorem group_sections_boundary (p : Pipeline) :
    boundary_ok (group_sections p) := by
  unfold group_sections
  apply boundary_ok_mark_last
  have h0 : boundary_ok (finish_section (⟨[], p.loader_pattern, []⟩ : GroupState))
      ∧ ((⟨[], p.loader_pattern, []⟩ : GroupState).sections ≠ []
          → (⟨[], p.loader_pattern, []⟩ : GroupState).cur_methods ≠ []) := by
    constructor
    · trivial
    · intro hs
      exact absurd rfl hs
  exact (foldl_boundary p.methods ⟨[], p.loader_pattern, []⟩ h0).1

/-! ### Lemmas about `backprop` -/

theorem backprop_length (l : List PlatformSection) :
    (backprop l).1.length = l.length := by
  induction l with
  | nil => rfl
  | cons s rest ih =>
    show ((_ : PlatformSection) :: (backprop rest).1).length = _
    simp [ih]

theorem backprop_snd_eq_head (l : List PlatformSection) (h : l ≠ []) :
    ∃ s0 rest, (backprop l).1 = s0 :: rest ∧ s0.pattern = (backprop l).2 := by
  cases l with
  | nil => exact absurd rfl h
  | cons s rest =>
    refine ⟨_, (backprop rest).1, rfl, rfl⟩

theorem backprop_all_all (l : List PlatformSection)
    (h : ∀ s ∈ l, s.pattern = Httomo.Pattern.all) :
    backprop l = (l, Httomo.Pattern.all) := by
  induction l with
  | nil => rfl
  | cons s rest ih =>
    have hrest := ih fun t ht => h t (by simp [ht])
    have hs : s.pattern = Httomo.Pattern.all := h s (by simp)
    obtain ⟨sp, sm, sme, sl⟩ := s
    simp only at hs
    simp [backprop, hrest, hs]

theorem backprop_all_nonall (l : List PlatformSection)
    (h : ∀ s ∈ l, s.pattern ≠ Httomo.Pattern.all) :
    (backprop l).1 = l := by
  induction l with
  | nil => rfl
  | cons s rest ih =>
    have hrest := ih fun t ht => h t (by simp [ht])
    have hs : s.pattern ≠ Httomo.Pattern.all := h s (by simp)
    obtain ⟨sp, sm, sme, sl⟩ := s
    simp only at hs
    simp [backprop, hrest, hs]

theorem backprop_snd_all (l : List PlatformSection)
    (h : (backprop l).2 = Httomo.Pattern.all) :
    ∀ s ∈ l, s.pattern = Httomo.Pattern.all := by
  induction l with
  | nil => simp
  | cons s rest ih =>
    have h2 : (if s.pattern = Httomo.Pattern.all then (backprop rest).2
        else s.pattern) = Httomo.Pattern.all := h
    by_cases hs : s.pattern = Httomo.Pattern.all
    · rw [if_pos hs] at h2
      intro t ht
      rcases List.mem_cons.1 ht with rfl | ht2
      · exact hs
      · exact ih h2 t ht2
    · rw [if_neg hs] at h2
      exact absurd h2 hs

theorem backprop_no_all (l : List PlatformSection)
    (hlead : allsLeading (l.map fun s => s.pattern))
    (hex : ∃ s ∈ l, s.pattern ≠ Httomo.Pattern.all) :
    ∀ t ∈ (backprop l).1, t.pattern ≠ Httomo.Pattern.all := by
  induction l with
  | nil => simp at hex
  | cons s rest ih =>
    rw [List.map_cons] at hlead
    unfold allsLeading at hlead
    have hmem : ∀ t, t ∈ (backprop (s :: rest)).1 ↔
        (t = ({ s with pattern := if s.pattern = Httomo.Pattern.all
            then (backprop rest).2 else s.pattern } : PlatformSection)
          ∨ t ∈ (backprop rest).1) := by
      intro t
      show t ∈ _ :: (backprop rest).1 ↔ _
      exact List.mem_cons
    by_cases hs : s.pattern = Httomo.Pattern.all
    · rw [if_pos hs] at hlead
      have hex2 : ∃ t ∈ rest, t.pattern ≠ Httomo.Pattern.all := by
        obtain ⟨t, ht, hne⟩ := hex
        rcases List.mem_cons.1 ht with rfl | ht2
        · exact absurd hs hne
        · exact ⟨t, ht2, hne⟩
      have hrest := ih hlead hex2
      intro t ht
      rcases (hmem t).1 ht with rfl | ht3
      · show (if s.pattern = Httomo.Pattern.all then (backprop rest).2
            else s.pattern) ≠ Httomo.Pattern.all
        rw [if_pos hs]
        intro hall
        obtain ⟨t0, ht0, hne0⟩ := hex2
        exact hne0 (backprop_snd_all rest hall t0 ht0)
      · exact hrest t ht3
    · rw [if_neg hs] at hlead
      have hrest : ∀ t ∈ rest, t.pattern ≠ Httomo.Pattern.all := by
        intro t ht
        exact hlead t.pattern (List.mem_map_of_mem _ ht)
      have hbp := backprop_all_nonall rest hrest
      intro t ht
      rcases (hmem t).1 ht with rfl | ht3
      · show (if s.pattern = Httomo.Pattern.all then (backprop rest).2
            else s.pattern) ≠ Httomo.Pattern.all
        rw [if_neg hs]
        exact hs
      · rw [hbp] at ht3
        exact hrest t ht3

/-! ### Stage-computation lemmas for `sectionize` -/

theorem sectionize_eq (p : Pipeline) :
    sectionize p =
      match finalize_patterns
          (backpropagate_section_patterns p.loader_pattern (group_sections p)).1
          (backpropagate_section_patterns p.loader_pattern (group_sections p)).2.1 with
      | .error e => .error e
      | .ok fin => .ok ⟨set_method_patterns fin.1, fin.2.1,
          (backpropagate_section_patterns p.loader_pattern (group_sections p)).2.2,
          fin.2.2⟩ := rfl

theorem bps_loader_all (loader : Httomo.Pattern) (secs : List PlatformSection)
    (h : loader = Httomo.Pattern.all) :
    backpropagate_section_patterns loader secs
      = ((backprop secs).1, (backprop secs).2, false) := by
  simp only [backpropagate_section_patterns]
  rw [if_pos h]

theorem bps_loader_ne_eq (loader : Httomo.Pattern) (secs : List PlatformSection)
    (h1 : loader ≠ Httomo.Pattern.all) (h2 : loader = (backprop secs).2) :
    backpropagate_section_patterns loader secs
      = ((backprop secs).1, loader, false) := by
  simp only [backpropagate_section_patterns]
  rw [if_neg h1, if_neg (by simpa using h2)]

theorem bps_loader_ne_ne (loader : Httomo.Pattern) (secs : List PlatformSection)
    (h1 : loader ≠ Httomo.Pattern.all) (h2 : loader ≠ (backprop secs).2) :
    backpropagate_section_patterns loader secs
      = ((backprop secs).1, loader, true) := by
  simp only [backpropagate_section_patterns]
  rw [if_neg h1, if_pos h2]

theorem finalize_check_ok (l : List PlatformSection) (pat : Httomo.Pattern)
    (d : Bool) (h1 : ∀ s ∈ l, s.pattern ≠ Httomo.Pattern.all)
    (h2 : pat ≠ Httomo.Pattern.all) :
    finalize_check (l, pat, d) = .ok (l, pat, d) := by
  unfold finalize_check
  have hchk : ((((l, pat, d) :
        List PlatformSection × Httomo.Pattern × Bool)).1.all
      fun s => decide (s.pattern ≠ Httomo.Pattern.all)) = true := by
    rw [List.all_eq_true]
    intro x hx
    simpa using h1 x hx
  rw [if_pos hchk, if_pos h2]

theorem finalize_step_cons (s0 : PlatformSection) (rest : List PlatformSection)
    (loader : Httomo.Pattern) :
    finalize_step (s0 :: rest) loader
      = if s0.pattern = Httomo.Pattern.all then
          ((s0 :: rest).map set_default_pattern, Httomo.Pattern.projection, true)
        else (s0 :: rest, loader, false) := rfl

theorem finalize_all_case (secs : List PlatformSection) (s0 : PlatformSection)
    (rest : List PlatformSection) (loader : Httomo.Pattern)
    (hsecs : secs = s0 :: rest) (h0 : s0.pattern = Httomo.Pattern.all) :
    finalize_patterns secs loader
      = .ok (secs.map set_default_pattern, Httomo.Pattern.projection, true) := by
  subst hsecs
  unfold finalize_patterns
  rw [finalize_step_cons, if_pos h0]
  apply finalize_check_ok
  · intro x hx
    obtain ⟨y, _, rfl⟩ := List.mem_map.1 hx
    simp [set_default_pattern]
  · decide

theorem finalize_nonall_case (secs : List PlatformSection) (s0 : PlatformSection)
    (rest : List PlatformSection) (loader : Httomo.Pattern)
    (hsecs : secs = s0 :: rest) (h0 : s0.pattern ≠ Httomo.Pattern.all)
    (hsec : ∀ s ∈ secs, s.pattern ≠ Httomo.Pattern.all)
    (hld : loader ≠ Httomo.Pattern.all) :
    finalize_patterns secs loader = .ok (secs, loader, false) := by
  subst hsecs
  unfold finalize_patterns
  rw [finalize_step_cons, if_neg h0]
  exact finalize_check_ok _ _ _ hsec hld

/-! ### Lemmas about `set_method_patterns` -/

theorem set_method_patterns_pattern_eq (l : List PlatformSection) :
    ∀ t ∈ set_method_patterns l, ∃ s ∈ l, t.pattern = s.pattern := by
  intro t ht
  obtain ⟨s, hs, rfl⟩ := List.mem_map.1 ht
  exact ⟨s, hs, rfl⟩

theorem set_method_patterns_stamped (l : List PlatformSection) :
    ∀ t ∈ set_method_patterns l, ∀ m ∈ t.methods, m.pattern = t.pattern := by
  intro t ht m hm
  obtain ⟨s, _, rfl⟩ := List.mem_map.1 ht
  obtain ⟨m0, _, rfl⟩ := List.mem_map.1 hm
  rfl

theorem set_method_patterns_cons (s : PlatformSection)
    (rest : List PlatformSection) :
    set_method_patterns (s :: rest)
      = ({ s with methods := s.methods.map fun m => { m with pattern := s.pattern } }
          : PlatformSection) :: set_method_patterns rest := rfl

end Sectionizer

/-!  ## Claim theorems -/

/-- **C1.** For every dataset whose length along the slicing dimension is
`L ≥ 1` and every `max_slices ≥ 1`, `BlockSplitter` yields exactly
`⌈L/max_slices⌉` blocks; with `s = min(max_slices, L)`, block `i` starts at
`i*s` (it is the view `data[i*s : i*s + s]` along the slicing dimension) and
has `s` slices except possibly the last, which has `L - (n-1)*s`; and
concatenating all blocks in order along the slicing dimension reproduces the
chunk's data exactly. -/
theorem C1_block_splitter_tiling (α : Type) (ds : BlockSplit.DataSet α)
    (pattern : Httomo.Pattern) (maxSlices : Nat)
    (hL : 1 ≤ ds.slabs.length) (hm : 1 ≤ maxSlices) :
    let L := ds.slabs.length
    let sp := BlockSplit.mkBlockSplitter ds pattern maxSlices
    let s := min maxSlices L
    let n := sp.num_blocks
    n = Httomo.natCeilDiv L maxSlices
    ∧ sp.max_slices = s
    ∧ (∀ i, i < n → (sp.getItem i).slabs = (ds.slabs.drop (i * s)).take s)
    ∧ (∀ i, i + 1 < n → (sp.getItem i).slabs.length = s)
    ∧ (sp.getItem (n - 1)).slabs.length = L - (n - 1) * s
    ∧ (sp.blocks.map BlockSplit.DataSet.slabs).flatten = ds.slabs := by
  intro L sp s n
  have hs : 1 ≤ s := le_min hm hL
  have hn_def : n = Httomo.natCeilDiv L s := rfl
  have hn1 : 1 ≤ n := Httomo.natCeilDiv_pos L s hL hs
  have hlast : (n - 1) * s < L := Httomo.natCeilDiv_pred_mul_lt L s hL hs
  have hcover : L ≤ n * s := Httomo.natCeilDiv_mul_ge L s hs
  refine ⟨Httomo.natCeilDiv_min L maxSlices hL, rfl, fun i _ => rfl, ?_, ?_, ?_⟩
  · intro i hi
    show ((ds.slabs.drop (i * s)).take s).length = s
    rw [List.length_take, List.length_drop]
    have h1 : (i + 1) * s ≤ (n - 1) * s := Nat.mul_le_mul_right s (by omega)
    have h3 : (i + 1) * s = i * s + s := by ring
    omega
  · show ((ds.slabs.drop ((n - 1) * s)).take s).length = L - (n - 1) * s
    rw [List.length_take, List.length_drop]
    have h5 : (n - 1) * s + s = n * s := by
      rw [← Nat.succ_mul, Nat.succ_eq_add_one, Nat.sub_add_cancel hn1]
    omega
  · show (((List.range n).map sp.getItem).map BlockSplit.DataSet.slabs).flatten
      = ds.slabs
    rw [List.map_map]
    have hfn : BlockSplit.DataSet.slabs ∘ sp.getItem
        = fun i => (ds.slabs.drop (i * s)).take s := rfl
    rw [hfn, BlockSplit.join_take_drop]
    exact List.take_of_length_le hcover

/-- Witness for C1 at a concrete input: a chunk of 3 slices split with
`max_slices = 2` gives 2 blocks whose concatenation is the chunk. -/
theorem C1_block_splitter_tiling_witness :
    ((BlockSplit.mkBlockSplitter
        (⟨[10, 20, 30], (4, 5), 0⟩ : BlockSplit.DataSet Nat)
        Httomo.Pattern.projection 2).blocks.map
      BlockSplit.DataSet.slabs).flatten = [10, 20, 30] :=
  (C1_block_splitter_tiling Nat ⟨[10, 20, 30], (4, 5), 0⟩
    Httomo.Pattern.projection 2 (by decide) (by decide)).2.2.2.2.2

/-- **C2.** For every dataset, every slicing pattern (hence either slicing
dimension `s ∈ {0,1}`), and every `k` with `1 ≤ k ≤ chunk_len[s]`, appending in
order all blocks produced by `BlockSplitter(dataset, pattern, k)` into a
`BlockAggregator` constructed from the same dataset and pattern (an identity
pipeline) makes `full_dataset` accessible and equal to the original dataset. -/
theorem C2_aggregator_round_trip (α : Type) (junk : α) (ds : BlockSplit.DataSet α)
    (pattern : Httomo.Pattern) (k : Nat)
    (hk1 : 1 ≤ k) (hk2 : k ≤ ds.slabs.length) :
    ((BlockSplit.mkBlockSplitter ds pattern k).blocks.foldlM
        (BlockSplit.BlockAggregator.append junk)
        (BlockSplit.mkBlockAggregator ds pattern)).bind
      BlockSplit.BlockAggregator.full_dataset = .ok ds := by
  obtain ⟨l, od, dt⟩ := ds
  have hL : 1 ≤ l.length := le_trans hk1 hk2
  have hs : 1 ≤ min k l.length := le_min hk1 hL
  have hblocks : (BlockSplit.mkBlockSplitter (⟨l, od, dt⟩ : BlockSplit.DataSet α)
        pattern k).blocks
      = (List.range' 0 (Httomo.natCeilDiv l.length (min k l.length))).map
          fun i => (⟨(l.drop (i * min k l.length)).take (min k l.length), od, dt⟩ :
            BlockSplit.DataSet α) := by
    rw [BlockSplit.BlockSplitter.blocks, List.range_eq_range']
    rfl
  rw [hblocks]
  have hagg : BlockSplit.mkBlockAggregator (⟨l, od, dt⟩ : BlockSplit.DataSet α) pattern
      = ⟨⟨l, od, dt⟩, Httomo.getSlicingDim pattern - 1,
          min (0 * min k l.length) l.length, l.length⟩ := by
    simp [BlockSplit.mkBlockAggregator]
  rw [hagg, BlockSplit.appendAll_identity junk od dt (Httomo.getSlicingDim pattern - 1)
    l (min k l.length) hs (Httomo.natCeilDiv l.length (min k l.length)) 0
    (Nat.zero_add _)]
  rw [Except.bind]
  unfold BlockSplit.BlockAggregator.full_dataset
  rw [if_neg (by simp)]

/-- Witness for C2 at a concrete input: splitting a 3-slice chunk with
`max_slices = 2` and aggregating the blocks back gives the original dataset. -/
theorem C2_aggregator_round_trip_witness :
    ((BlockSplit.mkBlockSplitter (⟨[7, 8, 9], (2, 3), 1⟩ : BlockSplit.DataSet Int)
        Httomo.Pattern.sinogram 2).blocks.foldlM
        (BlockSplit.BlockAggregator.append 0)
        (BlockSplit.mkBlockAggregator ⟨[7, 8, 9], (2, 3), 1⟩
          Httomo.Pattern.sinogram)).bind
      BlockSplit.BlockAggregator.full_dataset = .ok ⟨[7, 8, 9], (2, 3), 1⟩ :=
  C2_aggregator_round_trip Int 0 ⟨[7, 8, 9], (2, 3), 1⟩ Httomo.Pattern.sinogram 2
    (by decide) (by decide)

/-- Counterexample to **C3** as stated: `sectionize` never inspects placement,
so a pipeline of a host method followed by a GPU method with equal patterns
yields a single section containing wrappers of both placements (the methods
below differ only in `gpu`, which the grouping code never reads). -/
theorem C3_counterexample :
    Sectionizer.sectionize
        ⟨Httomo.Pattern.projection,
          [⟨0, Httomo.Pattern.projection, false, []⟩,
           ⟨1, Httomo.Pattern.projection, true, []⟩]⟩
      = .ok ⟨[⟨Httomo.Pattern.projection, 0,
              [⟨0, Httomo.Pattern.projection, false, []⟩,
               ⟨1, Httomo.Pattern.projection, true, []⟩], true⟩],
             Httomo.Pattern.projection, false, false⟩
    ∧ ([⟨0, Httomo.Pattern.projection, false, []⟩,
        ⟨1, Httomo.Pattern.projection, true, []⟩].map
          Sectionizer.MethodW.gpu) = [false, true] :=
  ⟨rfl, rfl⟩

/-- **C3 (amended).** For every pipeline accepted by `sectionize`, every
produced section carries one finalized pattern stamped onto all its wrappers,
and at every boundary between consecutive grouped sections a break rule fired:
the first method of the later section was pattern-incompatible with the
earlier section or referenced one of its methods through an `OutputRef`.
Placement is not examined by `sectionize`, so a section may mix host and GPU
wrappers (see the counterexample); the save-result break rule belongs to the
legacy task-runner sectionizer, not to this one. -/
theorem C3_section_grouping (p : Sectionizer.Pipeline)
    (r : Sectionizer.SectionizeResult) (h : Sectionizer.sectionize p = .ok r) :
    (∀ s ∈ r.sections, ∀ m ∈ s.methods, m.pattern = s.pattern)
    ∧ Sectionizer.boundary_ok (Sectionizer.group_sections p) := by
  constructor
  · rw [Sectionizer.sectionize_eq] at h
    cases hf : Sectionizer.finalize_patterns
        (Sectionizer.backpropagate_section_patterns p.loader_pattern
          (Sectionizer.group_sections p)).1
        (Sectionizer.backpropagate_section_patterns p.loader_pattern
          (Sectionizer.group_sections p)).2.1 with
    | error e =>
      rw [hf] at h
      exact Except.noConfusion h
    | ok fin =>
      rw [hf] at h
      injection h with h2
      subst h2
      exact Sectionizer.set_method_patterns_stamped _
  · exact Sectionizer.group_sections_boundary p

/-- Witness for C3 (amended) at a concrete input: the mixed-placement pipeline
of the counterexample still has its section's pattern stamped on both
wrappers, and its (single-section) grouping satisfies the boundary
property. -/
theorem C3_section_grouping_witness :
    (∀ s ∈ (⟨[⟨Httomo.Pattern.projection, 0,
          [⟨0, Httomo.Pattern.projection, false, []⟩,
           ⟨1, Httomo.Pattern.projection, true, []⟩], true⟩],
         Httomo.Pattern.projection, false, false⟩ :
        Sectionizer.SectionizeResult).sections,
      ∀ m ∈ s.methods, m.pattern = s.pattern)
    ∧ Sectionizer.boundary_ok (Sectionizer.group_sections
        ⟨Httomo.Pattern.projection,
          [⟨0, Httomo.Pattern.projection, false, []⟩,
           ⟨1, Httomo.Pattern.projection, true, []⟩]⟩) :=
  C3_section_grouping
    ⟨Httomo.Pattern.projection,
      [⟨0, Httomo.Pattern.projection, false, []⟩,
       ⟨1, Httomo.Pattern.projection, true, []⟩]⟩
    ⟨[⟨Httomo.Pattern.projection, 0,
        [⟨0, Httomo.Pattern.projection, false, []⟩,
         ⟨1, Httomo.Pattern.projection, true, []⟩], true⟩],
      Httomo.Pattern.projection, false, false⟩ rfl

/-- **C4.** For every pipeline, `sectionize` finishes (its asserts cannot
fire): afterwards no section has pattern `all` and the loader's pattern is not
`all`; unless the initial-reslice marker `loader_reslice` was set, the
loader's pattern equals the first section's; and if every grouped section's
pattern was `all`, all sections and the loader are set to `projection` and the
diagnostic is emitted. -/
theorem C4_pattern_finalization (p : Sectionizer.Pipeline) :
    ∃ r : Sectionizer.SectionizeResult,
      Sectionizer.sectionize p = .ok r
      ∧ r.sections ≠ []
      ∧ (∀ s ∈ r.sections, s.pattern ≠ Httomo.Pattern.all)
      ∧ r.loader_pattern ≠ Httomo.Pattern.all
      ∧ (r.loader_reslice = false →
          ∀ s0 ∈ r.sections.head?, r.loader_pattern = s0.pattern)
      ∧ ((∀ s ∈ Sectionizer.group_sections p, s.pattern = Httomo.Pattern.all) →
          (∀ s ∈ r.sections, s.pattern = Httomo.Pattern.projection)
          ∧ r.loader_pattern = Httomo.Pattern.projection
          ∧ r.diagnostic = true) := by
  obtain ⟨s00, rest0, hsecs0⟩ :=
    List.exists_cons_of_ne_nil (Sectionizer.group_sections_ne_nil p)
  have hlead := Sectionizer.group_sections_allsLeading p
  rw [Sectionizer.sectionize_eq]
  by_cases hall : ∀ s ∈ Sectionizer.group_sections p,
      s.pattern = Httomo.Pattern.all
  · have hbp := Sectionizer.backprop_all_all _ hall
    have hs00 : s00.pattern = Httomo.Pattern.all :=
      hall s00 (by rw [hsecs0]; simp)
    have hsec_proj : ∀ t ∈ Sectionizer.set_method_patterns
        ((Sectionizer.group_sections p).map Sectionizer.set_default_pattern),
        t.pattern = Httomo.Pattern.projection := by
      intro t ht
      obtain ⟨s, hs, hpat⟩ := Sectionizer.set_method_patterns_pattern_eq _ t ht
      obtain ⟨y, _, rfl⟩ := List.mem_map.1 hs
      rw [hpat]
      rfl
    have hne2 : Sectionizer.set_method_patterns
        ((Sectionizer.group_sections p).map
          Sectionizer.set_default_pattern) ≠ [] := by
      rw [hsecs0]
      simp [Sectionizer.set_method_patterns]
    by_cases hld : p.loader_pattern = Httomo.Pattern.all
    · have hfin := Sectionizer.finalize_all_case (Sectionizer.group_sections p)
        s00 rest0 Httomo.Pattern.all hsecs0 hs00
      rw [Sectionizer.bps_loader_all _ _ hld, hbp, hfin]
      refine ⟨_, rfl, hne2, ?_,
        (by decide : Httomo.Pattern.projection ≠ Httomo.Pattern.all), ?_, ?_⟩
      · intro s hs
        rw [hsec_proj s hs]
        decide
      · intro _ s0 hs0
        exact (hsec_proj s0 (List.mem_of_mem_head? hs0)).symm
      · intro _
        exact ⟨fun s hs => hsec_proj s hs, rfl, rfl⟩
    · have hbp2ne : p.loader_pattern ≠ (Sectionizer.backprop
          (Sectionizer.group_sections p)).2 := by
        rw [hbp]
        exact hld
      have hfin := Sectionizer.finalize_all_case (Sectionizer.group_sections p)
        s00 rest0 p.loader_pattern hsecs0 hs00
      rw [Sectionizer.bps_loader_ne_ne _ _ hld hbp2ne, hbp, hfin]
      refine ⟨_, rfl, hne2, ?_,
        (by decide : Httomo.Pattern.projection ≠ Httomo.Pattern.all), ?_, ?_⟩
      · intro s hs
        rw [hsec_proj s hs]
        decide
      · intro hrf
        exact Bool.noConfusion hrf
      · intro _
        exact ⟨fun s hs => hsec_proj s hs, rfl, rfl⟩
  · push_neg at hall
    have hex : ∃ s ∈ Sectionizer.group_sections p,
        s.pattern ≠ Httomo.Pattern.all := hall
    have hnoall := Sectionizer.backprop_no_all _ hlead hex
    obtain ⟨s10, rest1, hbp1, hbp2⟩ :=
      Sectionizer.backprop_snd_eq_head _ (Sectionizer.group_sections_ne_nil p)
    have hs10 : s10.pattern ≠ Httomo.Pattern.all :=
      hnoall s10 (by rw [hbp1]; simp)
    have hbp2ne : (Sectionizer.backprop (Sectionizer.group_sections p)).2
        ≠ Httomo.Pattern.all := by
      rw [← hbp2]
      exact hs10
    have hsec_ne : ∀ t ∈ Sectionizer.set_method_patterns
        (Sectionizer.backprop (Sectionizer.group_sections p)).1,
        t.pattern ≠ Httomo.Pattern.all := by
      intro t ht
      obtain ⟨s, hs, hpat⟩ := Sectionizer.set_method_patterns_pattern_eq _ t ht
      rw [hpat]
      exact hnoall s hs
    have hne2 : Sectionizer.set_method_patterns
        (Sectionizer.backprop (Sectionizer.group_sections p)).1 ≠ [] := by
      rw [hbp1]
      simp [Sectionizer.set_method_patterns]
    have hhead2 : ∀ s0 ∈ (Sectionizer.set_method_patterns
        (Sectionizer.backprop (Sectionizer.group_sections p)).1).head?,
        s0.pattern = s10.pattern := by
      rw [hbp1, Sectionizer.set_method_patterns_cons]
      intro s0 hs0
      simp only [List.head?_cons, Option.mem_def, Option.some.injEq] at hs0
      rw [← hs0]
    have hcontra : ¬ (∀ s ∈ Sectionizer.group_sections p,
        s.pattern = Httomo.Pattern.all) := by
      obtain ⟨t, ht, hnet⟩ := hex
      intro hprem
      exact hnet (hprem t ht)
    by_cases hld : p.loader_pattern = Httomo.Pattern.all
    · have hfin := Sectionizer.finalize_nonall_case
        (Sectionizer.backprop (Sectionizer.group_sections p)).1 s10 rest1
        (Sectionizer.backprop (Sectionizer.group_sections p)).2
        hbp1 hs10 hnoall hbp2ne
      rw [Sectionizer.bps_loader_all _ _ hld, hfin]
      refine ⟨_, rfl, hne2, hsec_ne, hbp2ne, ?_, ?_⟩
      · intro _ s0 hs0
        rw [hhead2 s0 hs0, hbp2]
      · intro hprem
        exact absurd hprem hcontra
    · by_cases heq : p.loader_pattern
          = (Sectionizer.backprop (Sectionizer.group_sections p)).2
      · have hfin := Sectionizer.finalize_nonall_case
          (Sectionizer.backprop (Sectionizer.group_sections p)).1 s10 rest1
          p.loader_pattern hbp1 hs10 hnoall hld
        rw [Sectionizer.bps_loader_ne_eq _ _ hld heq, hfin]
        refine ⟨_, rfl, hne2, hsec_ne, hld, ?_, ?_⟩
        · intro _ s0 hs0
          rw [hhead2 s0 hs0, hbp2, ← heq]
        · intro hprem
          exact absurd hprem hcontra
      · have hfin := Sectionizer.finalize_nonall_case
          (Sectionizer.backprop (Sectionizer.group_sections p)).1 s10 rest1
          p.loader_pattern hbp1 hs10 hnoall hld
        rw [Sectionizer.bps_loader_ne_ne _ _ hld heq, hfin]
        refine ⟨_, rfl, hne2, hsec_ne, hld, ?_, ?_⟩
        · intro hrf
          exact Bool.noConfusion hrf
        · intro hprem
          exact absurd hprem hcontra

/-- Witness for C4 at a concrete input: a pipeline whose loader and single
method all declare pattern `all` finalizes to `projection` with the
diagnostic emitted. -/
theorem C4_pattern_finalization_witness :
    ∃ r : Sectionizer.SectionizeResult,
      Sectionizer.sectionize
          ⟨Httomo.Pattern.all, [⟨0, Httomo.Pattern.all, false, []⟩]⟩ = .ok r
      ∧ r.loader_pattern = Httomo.Pattern.projection
      ∧ r.diagnostic = true := by
  obtain ⟨r, h1, _, _, _, _, h6⟩ := C4_pattern_finalization
    ⟨Httomo.Pattern.all, [⟨0, Httomo.Pattern.all, false, []⟩]⟩
  have hd := h6 (by decide)
  exact ⟨r, h1, hd.2.1, hd.2.2⟩

/-- Counterexample to **C5** as stated.  A size-0 block leaves
`_current_idx = 0`, so a *second* append whose non-slice shape and dtype both
differ from the buffer is still accepted (with another reallocation) instead
of raising: starting from a fresh aggregator over a 1-slice chunk of non-slice
shape `(1,1)`, appending first an empty block of shape `(2,2)` and then a
1-slice block of shape `(3,3)`/other dtype succeeds. -/
theorem C5_counterexample :
    (BlockSplit.BlockAggregator.append (7 : Int)
        (BlockSplit.mkBlockAggregator ⟨[1], (1, 1), 0⟩ Httomo.Pattern.projection)
        ⟨[], (2, 2), 0⟩).bind
      (fun a => BlockSplit.BlockAggregator.append 7 a ⟨[5], (3, 3), 2⟩)
    = .ok ⟨⟨[5], (3, 3), 2⟩, 0, 1, 1⟩ := rfl

/-- **C5 (amended).** For every aggregator state and incoming block:
a mismatching non-slice shape or dtype is accepted exactly when no slices have
been appended yet (`current_idx = 0`, which coincides with "first append"
whenever all appended blocks are non-empty), reallocating the buffer to the
block's shape and dtype; when `current_idx ≠ 0` a mismatching append raises;
and `full_dataset` raises before exactly `full_size` slices have been appended
and exposes the buffer at completion. -/
theorem C5_shape_change_containment (α : Type) (junk : α)
    (agg : BlockSplit.BlockAggregator α) (blk : BlockSplit.DataSet α) :
    (agg.current_idx = 0 → blk.slabs.length ≤ agg.full_size →
      (blk.otherDims ≠ agg.dataset.otherDims ∨ blk.dtype ≠ agg.dataset.dtype) →
      ∃ agg2, BlockSplit.BlockAggregator.append junk agg blk = .ok agg2
        ∧ agg2.dataset.otherDims = blk.otherDims
        ∧ agg2.dataset.dtype = blk.dtype
        ∧ agg2.dataset.slabs.length = agg.full_size
        ∧ agg2.current_idx = blk.slabs.length)
    ∧ (agg.current_idx ≠ 0 →
      (blk.otherDims ≠ agg.dataset.otherDims ∨ blk.dtype ≠ agg.dataset.dtype) →
      ∃ e, BlockSplit.BlockAggregator.append junk agg blk = .error e)
    ∧ (agg.current_idx ≠ agg.full_size →
      BlockSplit.BlockAggregator.full_dataset agg = .error "Aggregation not finished")
    ∧ (agg.current_idx = agg.full_size →
      BlockSplit.BlockAggregator.full_dataset agg = .ok agg.dataset) := by
  refine ⟨?_, ?_, ?_, ?_⟩
  · intro h0 hsize hmis
    unfold BlockSplit.BlockAggregator.append
      BlockSplit.BlockAggregator.increase_dims_if_needed
    rw [if_neg (by omega), if_pos hmis, if_neg (by omega)]
    refine ⟨_, rfl, rfl, rfl, ?_, ?_⟩
    · show (List.take agg.current_idx (List.replicate agg.full_size junk)
          ++ blk.slabs
          ++ List.drop (agg.current_idx + blk.slabs.length)
              (List.replicate agg.full_size junk)).length = agg.full_size
      simp only [List.length_append, List.length_take, List.length_drop,
        List.length_replicate]
      omega
    · show agg.current_idx + blk.slabs.length = blk.slabs.length
      omega
  · intro h0 hmis
    unfold BlockSplit.BlockAggregator.append
      BlockSplit.BlockAggregator.increase_dims_if_needed
    by_cases hsz : agg.full_size < blk.slabs.length + agg.current_idx
    · rw [if_pos hsz]
      exact ⟨_, rfl⟩
    · rw [if_neg hsz, if_pos hmis, if_pos h0]
      exact ⟨_, rfl⟩
  · intro hne
    unfold BlockSplit.BlockAggregator.full_dataset
    rw [if_pos hne]
  · intro heq
    unfold BlockSplit.BlockAggregator.full_dataset
    rw [if_neg (by omega)]

/-- Witness for C5 (amended) at concrete inputs: on a fresh aggregator over a
2-slice chunk, a first append of a 1-slice block with different non-slice
shape succeeds; and `full_dataset` of an aggregator stopped at index 1 of 2
raises. -/
theorem C5_shape_change_containment_witness :
    (∃ agg2, BlockSplit.BlockAggregator.append (0 : Int)
        (BlockSplit.mkBlockAggregator ⟨[1, 2], (1, 1), 0⟩ Httomo.Pattern.projection)
        ⟨[5], (3, 3), 0⟩ = .ok agg2
      ∧ agg2.dataset.otherDims = (3, 3)
      ∧ agg2.dataset.dtype = 0
      ∧ agg2.dataset.slabs.length = 2
      ∧ agg2.current_idx = 1)
    ∧ BlockSplit.BlockAggregator.full_dataset
        (BlockSplit.BlockAggregator.mk (⟨[5, 0], (3, 3), 0⟩ : BlockSplit.DataSet Int) 0 1 2)
      = .error "Aggregation not finished" :=
  ⟨(C5_shape_change_containment Int 0
      (BlockSplit.mkBlockAggregator ⟨[1, 2], (1, 1), 0⟩ Httomo.Pattern.projection)
      ⟨[5], (3, 3), 0⟩).1 rfl (by decide) (by decide),
   (C5_shape_change_containment Int 0
      (BlockSplit.BlockAggregator.mk ⟨[5, 0], (3, 3), 0⟩ 0 1 2)
      ⟨[5], (3, 3), 0⟩).2.2.1 (by decide)⟩

/-- **C6** failing-input evaluation: the centering override computes
`if slice_ind_center is None or 'mid':`, which is always true, so with
`ind = 3` and `shape[1] = 10` the code hands the method the middle slice
`10 // 2 = 5`, while the claim (and the spec) say slice `3`. -/
theorem C6_center_ind_ignored :
    TaskRunner.center_slice_index (TaskRunner.PyVal.int 3) 10 = 5
    ∧ TaskRunner.center_slice_index_claimed (TaskRunner.PyVal.int 3) 10 = 3
    ∧ (5 : Int) ≠ 3 := by decide

/-- Counterexample to **C7** as stated: with a GPU section over a chunk of 180
slices and a single estimator yielding `-3` slices, `_update_max_slices`
returns normally with `section.max_slices = -3` - no out-of-memory/plan error
is raised - and the runner then computes `ceil(180 / -3) = -60` block
iterations, i.e. `range(-60) = []`: it proceeds, processing no blocks. -/
theorem C7_counterexample :
    TaskRunner.update_max_slices true 180 [some (-3)] = -3
    ∧ TaskRunner.iterations_for_blocks 180 (-3) = .ok (-60)
    ∧ TaskRunner.block_iterations_list (-60) = [] := ⟨rfl, rfl, rfl⟩

/-- **C7 (amended).** The planner performs no zero/negative check: when
`_update_max_slices` yields `0` the runner fails with `ZeroDivisionError`
while computing `iterations_for_blocks` (before any block runs, but not with a
plan/out-of-memory error); when it yields a negative number, no error is
raised at all and the block loop runs zero iterations. -/
theorem C7_no_plan_error (gpu : Bool) (chunkLen : Int)
    (estimates : List (Option Int)) (hL : 1 ≤ chunkLen) :
    (TaskRunner.update_max_slices gpu chunkLen estimates = 0 →
      TaskRunner.iterations_for_blocks chunkLen
          (TaskRunner.update_max_slices gpu chunkLen estimates)
        = .error "ZeroDivisionError")
    ∧ (TaskRunner.update_max_slices gpu chunkLen estimates < 0 →
      ∃ k, TaskRunner.iterations_for_blocks chunkLen
          (TaskRunner.update_max_slices gpu chunkLen estimates) = .ok k
        ∧ k ≤ 0 ∧ TaskRunner.block_iterations_list k = []) := by
  constructor
  · intro h
    rw [h]
    rfl
  · intro h
    unfold TaskRunner.iterations_for_blocks TaskRunner.pymath_ceil_div
    rw [if_neg (by omega), if_neg (by omega)]
    refine ⟨_, rfl, ?_, ?_⟩
    · have hnn : 0 ≤ Int.ediv chunkLen
          (-(TaskRunner.update_max_slices gpu chunkLen estimates)) :=
        Int.ediv_nonneg (by omega) (by omega)
      omega
    · unfold TaskRunner.block_iterations_list
      have hnn : 0 ≤ Int.ediv chunkLen
          (-(TaskRunner.update_max_slices gpu chunkLen estimates)) :=
        Int.ediv_nonneg (by omega) (by omega)
      have ht : (-(Int.ediv chunkLen
          (-(TaskRunner.update_max_slices gpu chunkLen estimates)))).toNat = 0 := by
        omega
      rw [ht]
      rfl

/-- Witness for C7 (amended) at a concrete input: an estimator yielding `0`
slices makes the planner return `0`, and the iteration count then raises
`ZeroDivisionError`. -/
theorem C7_no_plan_error_witness :
    TaskRunner.iterations_for_blocks 180
        (TaskRunner.update_max_slices true 180 [some 0])
      = .error "ZeroDivisionError" :=
  (C7_no_plan_error true 180 [some 0] (by decide)).1 (by decide)

/-- **C8** failing-input evaluation: executing the reconstruction wrapper's
preprocessing on a `DataSetBlock` whose axis-0 length (2) is shorter than the
base's angles vector (length 4) raises the unconditional
`DataSetBlock._set_value` error, so the method is never handed truncated
angles (and no working copy is involved). -/
theorem C8_truncation_raises_on_block :
    DatasetModel.recon_preprocess_block
        (DatasetModel.mkDataSetBlock
          (DatasetModel.mkDataSet [[[1]], [[2]]] [10, 11, 12, 13] [] []) 1 0 1)
      = .error "Cannot update field angles in a block/slice dataset" := rfl

/-- Counterexample to **C9** as stated: `ReconstructionWrapper._preprocess_data`
- a wrapper that is not the dezinging wrapper - succeeds in replacing the
`angles` of a dataset that was locked at construction (it unlocks, truncates
and relocks), so the dezinging wrapper is not the only wrapper that unlocks. -/
theorem C9_counterexample :
    (DatasetModel.mkDataSet [[[1]], [[2]]] [10, 11, 12, 13] [] []).is_locked = true
    ∧ DatasetModel.recon_preprocess
        (DatasetModel.mkDataSet [[[1]], [[2]]] [10, 11, 12, 13] [] [])
      = .ok (DatasetModel.mkDataSet [[[1]], [[2]]] [10, 11] [] []) :=
  ⟨rfl, rfl⟩

/-- **C9 (amended).** Every `DataSet` is locked at construction; while locked,
assigning to `darks`, `flats` or `angles` raises and leaves the field
unchanged, and assignment succeeds after `unlock()`; the dezinging wrapper
unlocks, rewrites darks and flats with the method applied with the same
parameters as the data, and relocks (the reconstruction wrapper also unlocks,
to truncate the angles - see the counterexample). -/
theorem C9_lock_discipline (data : DatasetModel.Arr3) (angles : List Int)
    (darks flats : DatasetModel.Arr3) (ds : DatasetModel.DataSet)
    (v : List Int) (w : DatasetModel.Arr3) (f : DatasetModel.Arr3 → DatasetModel.Arr3) :
    (DatasetModel.mkDataSet data angles darks flats).is_locked = true
    ∧ (ds.is_locked = true →
        ds.set_angles v = .error "attempt to reset angles in a locked dataset"
        ∧ ds.set_darks w = .error "attempt to reset darks in a locked dataset"
        ∧ ds.set_flats w = .error "attempt to reset flats in a locked dataset")
    ∧ (ds.is_locked = false →
        ds.set_angles v = .ok { ds with angles := v }
        ∧ ds.set_darks w = .ok { ds with darks := w }
        ∧ ds.set_flats w = .ok { ds with flats := w })
    ∧ DatasetModel.dezinging_execute f ds
        = .ok ⟨f ds.data, ds.angles, f ds.darks, f ds.flats, true⟩ := by
  refine ⟨rfl, ?_, ?_, ?_⟩
  · intro h
    refine ⟨?_, ?_, ?_⟩ <;>
      simp [DatasetModel.DataSet.set_angles, DatasetModel.DataSet.set_darks,
        DatasetModel.DataSet.set_flats, h]
  · intro h
    refine ⟨?_, ?_, ?_⟩ <;>
      simp [DatasetModel.DataSet.set_angles, DatasetModel.DataSet.set_darks,
        DatasetModel.DataSet.set_flats, h]
  · simp [DatasetModel.dezinging_execute, DatasetModel.DataSet.set_darks,
      DatasetModel.DataSet.set_flats, DatasetModel.DataSet.unlock,
      DatasetModel.DataSet.lock]

/-- Witness for C9 (amended) at a concrete input: setting angles on a freshly
constructed (locked) dataset raises. -/
theorem C9_lock_discipline_witness :
    DatasetModel.DataSet.set_angles ⟨[[[1]]], [5], [], [], true⟩ [9]
      = .error "attempt to reset angles in a locked dataset" :=
  ((C9_lock_discipline [[[1]]] [5] [] [] ⟨[[[1]]], [5], [], [], true⟩ [9] []
      id).2.1 rfl).1

/-- **C10.** Any dataset returned by `make_block` is a `DataSetBlock`, and
calling `make_block` on it raises for all arguments: blocks cannot be
subdivided into further blocks; only a non-block `DataSet` can produce
blocks. -/
theorem C10_no_nested_blocks (d : DatasetModel.DSAny) (dim start : Nat)
    (length : Option Nat) (b : DatasetModel.DSAny)
    (h : d.make_block dim start length = .ok b) :
    ∀ (dim2 start2 : Nat) (length2 : Option Nat),
      b.make_block dim2 start2 length2
        = .error "Cannot slice a dataset that is already a slice" := by
  intro dim2 start2 length2
  cases d with
  | plain ds =>
    simp only [DatasetModel.DSAny.make_block, Except.ok.injEq] at h
    subst h
    rfl
  | blockOf b0 =>
    exact Except.noConfusion h

/-- Witness for C10 at a concrete input: the block produced by `make_block` on
a concrete dataset refuses to be sliced again. -/
theorem C10_no_nested_blocks_witness :
    (DatasetModel.DSAny.blockOf
        ((DatasetModel.mkDataSet [[[1]]] [0] [] []).make_block 0 0 Option.none)).make_block
      1 0 Option.none
    = .error "Cannot slice a dataset that is already a slice" :=
  C10_no_nested_blocks (.plain (DatasetModel.mkDataSet [[[1]]] [0] [] []))
    0 0 Option.none _ rfl 1 0 Option.none
